import Mathlib

/-!
Verification development for the navigation-and-caching core of a terminal
file browser (source: nav.go).  The Go source is shallowly embedded: pure
helpers become Lean functions, the in-place stable sorts become a stable
insertion sort, map-backed caches become association lists, goroutine spawns
become explicit spawn records, and filesystem access is abstracted into a
record of query functions.  Machine integers are modelled by `Int`
(Go `int`/`int64` arithmetic in scope here cannot overflow) and Go's
truncated division by `Int.tdiv`/`Int.tmod`.
-/

/-! ## File entries (nav.go: `linkState`, `file`) -/

/-- nav.go `linkState`: link-resolution state of an entry. -/
inductive linkState where
  | notLink
  | working
  | broken
deriving DecidableEq, Repr

/-- The slice of `os.FileInfo` used by nav.go: `Name()`, `Size()`,
`ModTime()`, `IsDir()` and the symlink bit of `Mode()`.  Modification time
is in nanoseconds; `time.Time.After` is `<` on this Int. -/
structure FileInfo where
  name : String := ""
  size : Int := 0
  modTime : Int := 0
  isDir : Bool := false
  isSymlink : Bool := false
deriving DecidableEq, Repr

/-- nav.go `file`: embedded FileInfo plus link state, full path and the
lazily computed child count (sentinel -1). -/
structure file where
  info : FileInfo := {}
  linkState : linkState := .notLink
  path : String := ""
  count : Int := -1
deriving DecidableEq, Repr

/-- Promoted method `Name()` of the embedded FileInfo. -/
def file.Name (f : file) : String := f.info.name

/-- Promoted method `Size()`. -/
def file.Size (f : file) : Int := f.info.size

/-- Promoted method `ModTime()` (nanoseconds). -/
def file.ModTime (f : file) : Int := f.info.modTime

/-- Promoted method `IsDir()`. -/
def file.IsDir (f : file) : Bool := f.info.isDir

/-- nav.go `dir.sort` tests `Name()[0] == '.'`: the first byte of the name
is the dot byte exactly when the first character is `'.'` (names produced by
readdir are never empty; on an empty name Go would panic, the model returns
false). -/
def file.hiddenB (f : file) : Bool :=
  match f.info.name.data with
  | [] => false
  | c :: _ => c == '.'

/-- Modelled from the spec: the `reg` struct (preview Register) is defined
outside nav.go; per spec section 3 a Register is the path it previews plus
an ordered sequence of text lines. -/
structure reg where
  path : String := ""
  lines : List String := []
deriving DecidableEq, Repr

/-- The slice of the process-wide options `gOpts` read by nav.go's
navigation core (options parsing is an external collaborator). -/
structure Config where
  sortby : String := "natural"
  reverse : Bool := false
  dirfirst : Bool := true
  hidden : Bool := false
  scrolloff : Int := 0
  previewer : String := ""
deriving DecidableEq, Repr

/-! ## String comparison keys

Go compares strings byte-lexicographically; for valid UTF-8 this equals
lexicographic comparison of the code-point sequences, so strings are keyed
by their lists of character codes.  `strings.ToLower` is modelled on the
ASCII range (the Unicode case table is immaterial to every claim). -/

/-- ASCII lowercasing of one character code (models `strings.ToLower`
characterwise on the ASCII range). -/
def lowerCode (n : Nat) : Nat :=
  if 65 ≤ n ∧ n ≤ 90 then n + 32 else n

/-- The character codes of `strings.ToLower(s)`. -/
def strCodesLower (s : String) : List Nat :=
  s.data.map (fun c => lowerCode c.toNat)

/-- Strict lexicographic comparison of code lists: the Bool-valued `<` of
Go's string comparison. -/
def lexLtNat : List Nat → List Nat → Bool
  | [], [] => false
  | [], _ :: _ => true
  | _ :: _, [] => false
  | a :: as, b :: bs => if a < b then true else if b < a then false else lexLtNat as bs

/-- Is this code an ASCII digit? -/
def isDigitCode (n : Nat) : Bool := 48 ≤ n && n ≤ 57

/-- Modelled from the spec: `naturalLess` lives in misc.go, which is not
part of the given source; spec section 6 only names the key "natural
ordering".  The model tokenises a string into maximal digit runs (compared
numerically) and single non-digit characters (compared by code), a digit
run comparing before a non-digit character; the token stream is flattened
into a code list (tag 0 + value for a digit run, tag 1 + code for a
character) compared lexicographically.  The accumulator carries the value
of the digit run currently being read. -/
def natKeyGo : Option Nat → List Nat → List Nat
  | acc, [] => (match acc with | some v => [0, v] | none => [])
  | acc, c :: cs =>
    if isDigitCode c then natKeyGo (some ((acc.getD 0) * 10 + (c - 48))) cs
    else (match acc with | some v => [0, v] | none => []) ++ 1 :: c :: natKeyGo none cs

/-- The natural-ordering sort key of a code list. -/
def natKey (s : List Nat) : List Nat := natKeyGo none s

/-- Modelled from the spec: natural-order comparison of two (already
lowercased) strings given as code lists. -/
def naturalLess (s t : List Nat) : Bool := lexLtNat (natKey s) (natKey t)

/-! ## Stable sorting (nav.go: `sortFilesStable`, `sort.Stable`)

`sort.Stable(filesSortable{files, less})` stably sorts in place by the
strict comparator `less` (the `i < j` tie branches in nav.go's boolean
comparators only restate what a stable sort does on ties).  A stable sort
by a strict weak order `less` is modelled by the stable insertion sort with
the total comparator `le a b := !(less b a)`: each element is inserted
before the first element of the already-sorted later-scanned suffix that it
is not strictly greater than, so ties keep scan order. -/

def insertSorted {α : Type} (le : α → α → Bool) (a : α) : List α → List α
  | [] => [a]
  | b :: l => if le a b then a :: b :: l else b :: insertSorted le a l

def sortStable {α : Type} (le : α → α → Bool) : List α → List α
  | [] => []
  | x :: xs => insertSorted le x (sortStable le xs)

/-- nav.go `sortFilesStable(files, less)`. -/
def sortFilesStable (less : file → file → Bool) (files : List file) : List file :=
  sortStable (fun a b => !(less b a)) files

/-- Sortedness under a Bool comparator. -/
def SortedB {α : Type} (le : α → α → Bool) (l : List α) : Prop :=
  l.Pairwise (fun a b => le a b = true)

/-! ## Listings (nav.go: `dir`) -/

/-- nav.go `dir`: one directory snapshot.  `fi` is the displayed (visible)
view, `all` every scanned entry; in Go both name the same backing array, so
the in-place sorting passes below are visible through `all` while the final
hidden-trim only re-slices `fi`. -/
structure dir where
  loading : Bool := false
  loadTime : Int := 0
  ind : Int := 0
  pos : Int := 0
  path : String := ""
  fi : List file := []
  all : List file := []
deriving DecidableEq, Repr

/-- The `switch gOpts.sortby` of nav.go `dir.sort`: one stable sort by the
configured key ("natural" via `naturalLess` on the lowercased names, "name"
by lowercased byte order, "size" by `Size()`, "time" by `ModTime().Before`);
an unknown key only logs and sorts nothing. -/
def sortByKey (sortby : String) (l : List file) : List file :=
  match sortby with
  | "natural" =>
    sortFilesStable
      (fun a b => naturalLess (strCodesLower a.Name) (strCodesLower b.Name)) l
  | "name" =>
    sortFilesStable
      (fun a b => lexLtNat (strCodesLower a.Name) (strCodesLower b.Name)) l
  | "size" => sortFilesStable (fun a b => decide (a.Size < b.Size)) l
  | "time" => sortFilesStable (fun a b => decide (a.ModTime < b.ModTime)) l
  | _ => l

/-- nav.go `dir.sort`: reset the visible view to the whole array
(`dir.fi = dir.all`), stable-sort by the configured key, optionally reverse
in place, optionally move directories first (stable), and when hidden files
are suppressed stably move dot-entries to the front and re-slice `fi` to
start at the first non-hidden entry (Go's trailing loop, i.e. `dropWhile`).
All passes act on the one shared array, hence on `all`. -/
def dir.sort (cfg : Config) (d : dir) : dir :=
  let fi1 := sortByKey cfg.sortby d.all
  let fi2 := if cfg.reverse then fi1.reverse else fi1
  let fi3 :=
    if cfg.dirfirst then sortFilesStable (fun a b => a.IsDir && !(b.IsDir)) fi2
    else fi2
  if cfg.hidden then { d with all := fi3, fi := fi3 }
  else
    let fi4 := sortFilesStable (fun a b => a.hiddenB && !(b.hiddenB)) fi3
    { d with all := fi4, fi := fi4.dropWhile file.hiddenB }

/-! ### The post-key passes are idempotent

Each optional pass after the key sort is a stable partition
(`sortStable_parts`).  Re-running the whole pipeline on its own output
re-sorts a partitioned sorted list; pushing the partition filters through
the key sort (`filter_sortStable`) reduces everything to sorting
already-sorted class sublists. -/

/-- A stable partition as a function: the `p`-class in order, then the
rest in order. -/
def partsFn {α : Type} (p : α → Bool) (l : List α) : List α :=
  l.filter p ++ l.filter (fun a => !(p a))

/-- The optional dirs-first pass as a function of the flag. -/
def dirPassFn (df : Bool) (l : List file) : List file :=
  if df then sortFilesStable (fun a b => a.IsDir && !(b.IsDir)) l else l

/-- The optional hidden-first pass as a function of the flag (`hid` is the
`gOpts.hidden` option: true shows hidden files, so no pass runs). -/
def hidPassFn (hid : Bool) (l : List file) : List file :=
  if hid then l else sortFilesStable (fun a b => a.hiddenB && !(b.hiddenB)) l

/-- The full in-place pipeline of `dir.sort` without the reverse pass. -/
def stagesAll (sortby : String) (df hid : Bool) (l : List file) : List file :=
  hidPassFn hid (dirPassFn df (sortByKey sortby l))

/-! ## Concrete fixtures used by counterexamples and witnesses -/

def fxA : file := { info := { name := "a" }, path := "/t/a" }

def fxB : file := { info := { name := "b" }, path := "/t/b" }

def fxHidden : file := { info := { name := ".h" }, path := "/t/.h" }

def fxDirSub : file := { info := { name := "sub", isDir := true }, path := "/t/sub" }

def cfgC2 : Config :=
  { sortby := "name", reverse := false, dirfirst := false, hidden := true,
    scrolloff := 0, previewer := "" }

def dC2 : dir := { fi := [fxB, fxA], all := [fxB, fxA] }

def dC2' : dir := { ind := 1, fi := [], all := [fxB, fxA] }

def cfgC3 : Config :=
  { sortby := "size", reverse := true, dirfirst := false, hidden := true,
    scrolloff := 0, previewer := "" }

def dC3 : dir := { fi := [fxA, fxB], all := [fxA, fxB] }

def cfgC3w : Config :=
  { sortby := "size", reverse := false, dirfirst := true, hidden := false,
    scrolloff := 0, previewer := "" }

def dC3w : dir :=
  { fi := [fxHidden, fxB, fxDirSub, fxA], all := [fxHidden, fxB, fxDirSub, fxA] }

def cfgC7 : Config :=
  { sortby := "name", reverse := false, dirfirst := false, hidden := false,
    scrolloff := 0, previewer := "" }

def dC7 : dir := { fi := [fxB, fxA, fxHidden], all := [fxB, fxA, fxHidden] }

/-! ## Filesystem model

nav.go reaches the OS through `os.Open`/`Readdirnames`, `os.Lstat`,
`os.Stat`, `os.Chdir`, file reads and the previewer process.  These are
abstracted into a record of query functions; `filepath.Join` is modelled as
separator concatenation, which is adequate for the clean absolute paths
used throughout. -/

/-- Result of `os.Lstat`: the not-found case (`os.IsNotExist`), any other
error, or the entry's metadata. -/
inductive LstatRes where
  | notFound
  | err (msg : String)
  | ok (info : FileInfo)
deriving DecidableEq, Repr

structure FS where
  openDirErr : String → Option String := fun _ => none
  names : String → List String := fun _ => []
  readNamesErr : String → Option String := fun _ => none
  lstat : String → LstatRes := fun _ => LstatRes.notFound
  stat : String → Option FileInfo := fun _ => none
  fileLines : String → Option (List String) := fun _ => none
  previewerOut : String → Int → List String := fun _ _ => []
  previewerPipeOk : Bool := true
  previewerStartOk : Bool := true

def joinPath (path name : String) : String := path ++ "/" ++ name

/-- One iteration of nav.go `readdir`'s loop body for one enumerated name:
a vanished entry (not-found lstat) is dropped, any other lstat error aborts
the loop (`return fi, lerr`), otherwise an entry is built — for a symlink,
a successful `os.Stat` adopts the target metadata (link state `working`),
a failed one logs and keeps the link's own lstat metadata (`broken`). -/
inductive ScanStep where
  | drop
  | abort (e : String)
  | keep (f : file)
deriving DecidableEq, Repr

def readdirStep (fs : FS) (fpath : String) : ScanStep :=
  match fs.lstat fpath with
  | LstatRes.notFound => ScanStep.drop
  | LstatRes.err e => ScanStep.abort e
  | LstatRes.ok lst =>
    if lst.isSymlink then
      match fs.stat fpath with
      | some st => ScanStep.keep { info := st, linkState := .working, path := fpath, count := -1 }
      | none => ScanStep.keep { info := lst, linkState := .broken, path := fpath, count := -1 }
    else ScanStep.keep { info := lst, linkState := .notLink, path := fpath, count := -1 }

/-- The loop of nav.go `readdir` over the enumerated names, with the
accumulated entries; at the end the `Readdirnames` error (if any) is
returned alongside the entries. -/
def readdirLoop (fs : FS) (path : String) : List file → List String → List file × Option String
  | acc, [] => (acc, fs.readNamesErr path)
  | acc, n :: rest =>
    match readdirStep fs (joinPath path n) with
    | ScanStep.drop => readdirLoop fs path acc rest
    | ScanStep.abort e => (acc, some e)
    | ScanStep.keep f => readdirLoop fs path (acc ++ [f]) rest

/-- nav.go `readdir`: an `os.Open` failure returns no entries and the
error; otherwise the loop above runs over `Readdirnames(-1)`. -/
def readdir (fs : FS) (path : String) : List file × Option String :=
  match fs.openDirErr path with
  | some e => ([], some e)
  | none => readdirLoop fs path [] (fs.names path)

/-- nav.go `newDir`: records the load time and stores the scanned entries
as both `fi` and `all` (one array); a readdir error is only logged. -/
def newDir (fs : FS) (now : Int) (path : String) : dir :=
  { loadTime := now, path := path, fi := (readdir fs path).1, all := (readdir fs path).1 }

/-- The body of the goroutine nav.go `nav.renew` spawns per stacked
Listing.  When `os.Stat(d.path)` fails the code logs the error and then
immediately calls `s.ModTime()` with `s` the nil FileInfo interface — a
nil-interface method call, i.e. a runtime panic that kills the process;
the panic is embedded as the `Except.error` case.  Otherwise: if the
Listing's load time is after the directory's mtime the worker returns
without delivering (`Except.ok none`); else it rescans, sorts, and delivers
the fresh Listing on the channel (`Except.ok (some _)`; the update of the
old Listing's `loadTime` field is immaterial here). -/
def renewWorker (fs : FS) (cfg : Config) (now : Int) (d : dir) : Except String (Option dir) :=
  match fs.stat d.path with
  | none =>
    Except.error "panic: runtime error: invalid memory address or nil pointer dereference"
  | some s =>
    if s.modTime < d.loadTime then Except.ok none
    else Except.ok (some (dir.sort cfg (newDir fs now d.path)))

/-! ### Fixtures for claim C8 -/

def fsC8 : FS :=
  { names := fun _ => ["bad", "ok"],
    lstat := fun p =>
      if p = "/d/bad" then LstatRes.err "permission denied"
      else if p = "/d/ok" then LstatRes.ok { name := "ok" } else LstatRes.notFound }

def fsW8 : FS :=
  { names := fun _ => ["s", "x"],
    lstat := fun p =>
      if p = "/d/s" then LstatRes.ok { name := "s", isSymlink := true }
      else if p = "/d/x" then LstatRes.ok { name := "x" } else LstatRes.notFound }

/-! ### Fixtures for claim C5 -/

def fsC5 : FS := {}

def dC5 : dir := { loadTime := 50, path := "/gone" }

/-! ## Cursor movement (nav.go: `nav.up`, `nav.down`, `dir.find`,
`nav.top`, `nav.bot`)

`nav.up`/`nav.down`/`nav.top`/`nav.bot` mutate the current (topmost)
Listing using the shared viewport height; the cursor arithmetic is modelled
on the Listing itself with the height and `gOpts.scrolloff` passed in.
Go's `min`/`max` helpers (misc.go) are standard integer min/max; Go's `/`
and `%` truncate toward zero, i.e. `Int.tdiv`/`Int.tmod`. -/

/-- nav.go `nav.up(dist)` on the current Listing. -/
def upDir (cfg : Config) (dist : Int) (d : dir) : dir :=
  if d.ind = 0 then d
  else
    let ind1 := max 0 (d.ind - dist)
    let pos1 := d.pos - dist
    let edge := min cfg.scrolloff ind1
    { d with ind := ind1, pos := max pos1 edge }

/-- nav.go `nav.down(dist)` on the current Listing (including the reduced
margin for even heights with maximal scrolloff). -/
def downDir (cfg : Config) (height dist : Int) (d : dir) : dir :=
  let maxind : Int := (d.fi.length : Int) - 1
  if maxind ≤ d.ind then d
  else
    let ind1 := min maxind (d.ind + dist)
    let pos1 := d.pos + dist
    let edge1 := min cfg.scrolloff (maxind - ind1)
    let edge2 := min edge1 (Int.tdiv height 2 + Int.tmod height 2 - 1)
    let pos2 := min pos1 (height - edge2 - 1)
    { d with ind := ind1, pos := min pos2 maxind }

/-- `fi[i].Name()` for the cursor arithmetic: Go would panic out of range,
which the Listing invariant rules out; the model totalises with `""`. -/
def nameAt (l : List file) (i : Int) : String :=
  match (l.drop i.toNat).head? with
  | some f => f.Name
  | none => ""

/-- nav.go `dir.find(name, height)`: clamp the cursor, search for `name`
(first match wins, otherwise the clamped cursor stays), then recompute the
scroll position with the scrolloff margin against the lower edge. -/
def dir.find (cfg : Config) (name : String) (height : Int) (d : dir) : dir :=
  if d.fi.length = 0 then { d with ind := 0, pos := 0 }
  else
    let ind1 := min d.ind ((d.fi.length : Int) - 1)
    let ind2 :=
      if nameAt d.fi ind1 = name then ind1
      else
        match d.fi.findIdx? (fun f => f.Name == name) with
        | some i => (i : Int)
        | none => ind1
    let edge := min cfg.scrolloff ((d.fi.length : Int) - ind2 - 1)
    { d with ind := ind2, pos := min ind2 (height - edge - 1) }

/-- nav.go `nav.top` on the current Listing. -/
def topDir (d : dir) : dir := { d with ind := 0, pos := 0 }

/-- nav.go `nav.bot` on the current Listing. -/
def botDir (height : Int) (d : dir) : dir :=
  { d with ind := (d.fi.length : Int) - 1,
           pos := min ((d.fi.length : Int) - 1) (height - 1) }

/-- The Listing cursor/scroll invariant of spec section 3:
`0 ≤ ind < len(visible)` (both 0 when empty) and `0 ≤ pos ≤ min(ind, height-1)`. -/
def listingInv (height : Int) (d : dir) : Prop :=
  0 ≤ d.ind ∧ 0 ≤ d.pos ∧ d.pos ≤ d.ind ∧ d.pos ≤ height - 1 ∧
  (d.fi.length = 0 → d.ind = 0 ∧ d.pos = 0) ∧
  (d.fi.length ≠ 0 → d.ind < (d.fi.length : Int))

instance (height : Int) (d : dir) : Decidable (listingInv height d) := by
  unfold listingInv
  infer_instance

/-! ### Fixtures for claim C6 -/

def dEmptyC6 : dir := {}

def cfgC6 : Config := { scrolloff := 1 }

def dC6 : dir :=
  { ind := 2, pos := 1, fi := [fxA, fxB, fxHidden], all := [fxA, fxB, fxHidden] }

/-! ## The navigation state (nav.go: `nav`)

The two caches and the mark set are Go maps; they are modelled as
association lists.  For the caches only lookup/insert behaviour matters.
For the marks the model keeps insertion order, while Go's map iteration
order is unspecified — `nav.currMarks`'s order-independence over iteration
orders is exactly what claim C9's theorem quantifies over. -/

def alookup {α : Type} : List (String × α) → String → Option α
  | [], _ => none
  | p :: m, k => if p.1 == k then some p.2 else alookup m k

/-- Go map assignment (replace-or-add); representation order is irrelevant
to lookups. -/
def aset {α : Type} (m : List (String × α)) (k : String) (v : α) : List (String × α) :=
  (k, v) :: m.filter (fun p => !(p.1 == k))

/-- nav.go `nav` (the unexercised `saves`/`search` fields are omitted),
plus `cwd` for the process-global working directory that `os.Chdir`
mutates — per spec section 5 it is part of the shared state the owner
thread updates together with the stack. -/
structure nav where
  dirs : List dir := []
  dirCache : List (String × dir) := []
  regCache : List (String × reg) := []
  marks : List (String × Int) := []
  markInd : Int := 0
  height : Int := 0
  cwd : String := ""
deriving DecidableEq

/-- nav.go `nav.currFile`: the entry under the cursor of the topmost
Listing; Go returns an "empty directory" error when the Listing is empty
(modelled as `none`) and would panic on an empty stack or out-of-range
`ind`, both excluded by the invariants (also `none` here). -/
def nav.currFile (nv : nav) : Option file :=
  match nv.dirs.getLast? with
  | none => none
  | some last =>
    if last.fi.length = 0 then none
    else (last.fi.drop last.ind.toNat).head?

/-- nav.go `nav.loadDir`: on a cache hit return the cached Listing with no
further work; on a miss, spawn one scan worker for the path, synchronously
insert the `loading = true` placeholder into the cache, and return the
placeholder.  The spawn and the insert happen inside one synchronous
owner-thread call (the source's `go` statement precedes the map insert
textually, but the worker never reads the cache, so the call is modelled
atomically); the returned list records the path of each spawned scan. -/
def nav.loadDir (nv : nav) (path : String) : dir × nav × List String :=
  match alookup nv.dirCache path with
  | some d => (d, nv, [])
  | none =>
    let d : dir := { loading := true, path := path }
    (d, { nv with dirCache := aset nv.dirCache path d }, [path])

/-- The body of the worker `nav.loadDir` spawns: scan, sort, cursor to the
top, deliver on the channel. -/
def loadDirWorker (fs : FS) (cfg : Config) (now : Int) (path : String) : dir :=
  let d := dir.sort cfg (newDir fs now path)
  { d with ind := 0, pos := 0 }

/-- One event at the directory cache: an owner-thread `loadDir` request, or
the arrival of a finished Listing on the channel. -/
inductive LoadStep where
  | request (path : String)
  | deliver (d : dir)

/-- Modelled from the spec: the single consumer loop that receives worker
results and merges them is outside nav.go (spec sections 4.1 and 5, "the
owning thread … replaces the placeholder (or stale entry) with the finished
Listing"); delivery stores the finished Listing under its path. -/
def deliverDir (cache : List (String × dir)) (d : dir) : List (String × dir) :=
  aset cache d.path d

def stepLoad (nv : nav) : LoadStep → nav × List String
  | LoadStep.request p => ((nav.loadDir nv p).2.1, (nav.loadDir nv p).2.2)
  | LoadStep.deliver d => ({ nv with dirCache := deliverDir nv.dirCache d }, [])

/-- Run a sequence of cache events, collecting every spawned scan path. -/
def runLoads (nv : nav) : List LoadStep → nav × List String
  | [] => (nv, [])
  | s :: rest =>
    let r1 := stepLoad nv s
    let r2 := runLoads r1.1 rest
    (r2.1, r1.2 ++ r2.2)

/-- `os.Chdir` succeeds exactly when the path stats as a directory. -/
def chdirErr (fs : FS) (path : String) : Option String :=
  match fs.stat path with
  | some s => if s.isDir then none else some ("chdir " ++ path ++ ": not a directory")
  | none => some ("chdir " ++ path ++ ": no such file or directory")

/-- nav.go `nav.open` (`open` is reserved in Lean): resolve the highlighted
entry (error when the Listing is empty), request its Listing via `loadDir`,
append it to the stack, then `os.Chdir` to the path.  On a chdir failure
the error is returned but the push and the cache insert already happened —
nothing is rolled back. -/
def nav.open' (fs : FS) (nv : nav) : Except String Unit × nav × List String :=
  match nav.currFile nv with
  | none => (Except.error "open: empty directory", nv, [])
  | some curr =>
    let res := nav.loadDir nv curr.path
    let nv2 := { res.2.1 with dirs := res.2.1.dirs ++ [res.1] }
    match chdirErr fs curr.path with
    | none => (Except.ok (), { nv2 with cwd := curr.path }, res.2.2)
    | some e => (Except.error ("open: " ++ e), nv2, res.2.2)

/-- nav.go `nav.toggleMark`: remove a present mark (resetting the counter
when the set empties) or add the path with the next counter value. -/
def nav.toggleMark (nv : nav) (path : String) : nav :=
  match alookup nv.marks path with
  | some _ =>
    let m := nv.marks.filter (fun p => !(p.1 == path))
    { nv with marks := m, markInd := if m.isEmpty then 0 else nv.markInd }
  | none =>
    { nv with marks := nv.marks ++ [(path, nv.markInd)], markInd := nv.markInd + 1 }

/-- nav.go `nav.currMarks`: collect the (path, index) pairs — in Go, in
unspecified map-iteration order — and sort by index (`sort.Sort` on
`indexedMarks`, an unstable sort; live indices are pairwise distinct, so
every comparison sort returns the same list, modelled by the stable one). -/
def nav.currMarks (nv : nav) : List String :=
  (sortStable (fun a b : String × Int => decide (a.2 ≤ b.2)) nv.marks).map Prod.fst

/-- The "loading..." placeholder line of nav.go `nav.loadReg`. -/
def loadingSentinel : String := "\x1b[1mloading...\x1b[0m"

/-- The "binary" sentinel line of nav.go `nav.preview`. -/
def binarySentinel : String := "\x1b[1mbinary\x1b[0m"

/-- The scanner loop of nav.go `nav.preview`: read up to `height` lines;
a NUL rune anywhere in a scanned line discards everything and yields the
binary sentinel (`none` here). -/
def scanLinesE : Nat → List String → Option (List String)
  | 0, _ => some []
  | _ + 1, [] => some []
  | h + 1, l :: rest =>
    if l.data.any (fun c => c.toNat == 0) then none
    else (scanLinesE h rest).map (l :: ·)

def scanLines (h : Nat) (ls : List String) : List String :=
  match scanLinesE h ls with
  | none => [binarySentinel]
  | some x => x

/-- nav.go `nav.preview` — the body of the worker spawned by `loadReg`.  It
previews `nav.currFile()` at the time it runs (no path is passed in!) and
keys the delivered Register by that file's path.  With a previewer
configured: a `cmd.StdoutPipe()` failure leaves the reader nil — the code
logs and continues, and `Scanner.Scan`/`out.Close` then panic on the nil
interface (`Except.error`); a `cmd.Start()` failure is logged and the pipe
only yields EOF.  Without a previewer, an `os.Open` failure is logged and
the scanner reads nothing.  An empty current Listing returns without
delivering. -/
def nav.preview (fs : FS) (cfg : Config) (nv : nav) : Except String (Option reg) :=
  match nav.currFile nv with
  | none => Except.ok none
  | some curr =>
    if cfg.previewer ≠ "" then
      if fs.previewerPipeOk then
        let lines0 := if fs.previewerStartOk then fs.previewerOut curr.path nv.height else []
        Except.ok (some { path := curr.path, lines := scanLines nv.height.toNat lines0 })
      else Except.error "panic: runtime error: invalid memory address or nil pointer dereference"
    else
      let lines0 := (fs.fileLines curr.path).getD []
      Except.ok (some { path := curr.path, lines := scanLines nv.height.toNat lines0 })

/-- nav.go `nav.loadReg` (its `ui` parameter is unused in the source): on a
cache hit return the cached Register; on a miss spawn `go nav.preview()` —
recorded by the Bool — cache a "loading..." placeholder under the REQUESTED
path, and return it. -/
def nav.loadReg (nv : nav) (path : String) : reg × nav × Bool :=
  match alookup nv.regCache path with
  | some r => (r, nv, false)
  | none =>
    let r : reg := { path := path, lines := [loadingSentinel] }
    (r, { nv with regCache := aset nv.regCache path r }, true)

def dDelivered : dir := { path := "/a", fi := [fxA], all := [fxA] }

/-! ### Fixtures for claims C1, C9 and C10 -/

def fsC1 : FS := { stat := fun p => if p = "/t/b" then some { name := "b" } else none }

def navC1 : nav := { dirs := [{ fi := [fxB], all := [fxB] }] }

def fW1 : file := { info := { name := "x.txt" }, path := "/t/x.txt" }

def fsW1 : FS := { stat := fun p => if p = "/t/x.txt" then some { name := "x.txt" } else none }

def navW1 : nav := { dirs := [{ fi := [fW1], all := [fW1] }], cwd := "/t" }

def navM3 : nav := ((nav.toggleMark {} "A").toggleMark "B").toggleMark "C"

def navM5 : nav := (navM3.toggleMark "B").toggleMark "B"

def fsC10 : FS :=
  { previewerOut := fun _ _ => ["hello"], fileLines := fun _ => some ["l1"] }

def cfgC10 : Config := { previewer := "pv" }

def navC10 : nav := { dirs := [{ fi := [fxB], all := [fxB] }], height := 5 }

/-! ### `lexLtNat` is a strict total order -/

theorem lexLtNat_cons_iff (x y : Nat) (xs ys : List Nat) :
    lexLtNat (x :: xs) (y :: ys) = true ↔ x < y ∨ (x = y ∧ lexLtNat xs ys = true) := by
  simp only [lexLtNat]
  by_cases h1 : x < y
  · simp [h1]
  · by_cases h2 : y < x
    · simp [h1, h2]; omega
    · have hxy : x = y := by omega
      simp [h1, h2, hxy]

theorem lexLtNat_asymm : ∀ a b : List Nat,
    lexLtNat a b = true → lexLtNat b a = true → False := by
  intro a
  induction a with
  | nil => intro b h1 h2; cases b <;> simp [lexLtNat] at h1 h2
  | cons x xs ih =>
    intro b h1 h2
    cases b with
    | nil => simp [lexLtNat] at h1
    | cons y ys =>
      rw [lexLtNat_cons_iff] at h1 h2
      rcases h1 with h1 | ⟨he1, h1⟩ <;> rcases h2 with h2 | ⟨he2, h2⟩
      · omega
      · omega
      · omega
      · exact ih ys h1 h2

theorem lexLtNat_trans : ∀ a b c : List Nat,
    lexLtNat a b = true → lexLtNat b c = true → lexLtNat a c = true := by
  intro a
  induction a with
  | nil =>
    intro b c h1 h2
    cases b with
    | nil => simp [lexLtNat] at h1
    | cons y ys =>
      cases c with
      | nil => simp [lexLtNat] at h2
      | cons z zs => simp [lexLtNat]
  | cons x xs ih =>
    intro b c h1 h2
    cases b with
    | nil => simp [lexLtNat] at h1
    | cons y ys =>
      cases c with
      | nil => simp [lexLtNat] at h2
      | cons z zs =>
        rw [lexLtNat_cons_iff] at h1 h2 ⊢
        rcases h1 with h1 | ⟨he1, h1⟩ <;> rcases h2 with h2 | ⟨he2, h2⟩
        · left; omega
        · left; omega
        · left; omega
        · right; exact ⟨by omega, ih ys zs h1 h2⟩

theorem lexLtNat_eq_of_not : ∀ a b : List Nat,
    lexLtNat a b = false → lexLtNat b a = false → a = b := by
  intro a
  induction a with
  | nil =>
    intro b h1 _
    cases b with
    | nil => rfl
    | cons y ys => simp [lexLtNat] at h1
  | cons x xs ih =>
    intro b h1 h2
    cases b with
    | nil => simp [lexLtNat] at h2
    | cons y ys =>
      have h1' : ¬ (x < y ∨ (x = y ∧ lexLtNat xs ys = true)) := by
        rw [← lexLtNat_cons_iff]; simp [h1]
      have h2' : ¬ (y < x ∨ (y = x ∧ lexLtNat ys xs = true)) := by
        rw [← lexLtNat_cons_iff]; simp [h2]
      push_neg at h1' h2'
      have hxy : x = y := by omega
      have e1 : lexLtNat xs ys = false := by
        rcases Bool.eq_false_or_eq_true (lexLtNat xs ys) with h | h
        · exact absurd h (h1'.2 hxy)
        · exact h
      have e2 : lexLtNat ys xs = false := by
        rcases Bool.eq_false_or_eq_true (lexLtNat ys xs) with h | h
        · exact absurd h (h2'.2 hxy.symm)
        · exact h
      rw [hxy, ih ys e1 e2]

theorem insertSorted_perm {α : Type} (le : α → α → Bool) (a : α) :
    ∀ l : List α, (insertSorted le a l).Perm (a :: l) := by
  intro l
  induction l with
  | nil => simp [insertSorted]
  | cons b l ih =>
    simp only [insertSorted]
    by_cases h : le a b
    · simp [h]
    · simp only [h, if_false, Bool.false_eq_true]
      exact (ih.cons b).trans (List.Perm.swap a b l)

theorem sortStable_perm {α : Type} (le : α → α → Bool) :
    ∀ l : List α, (sortStable le l).Perm l := by
  intro l
  induction l with
  | nil => simp [sortStable]
  | cons x xs ih =>
    simp only [sortStable]
    exact (insertSorted_perm le x (sortStable le xs)).trans (ih.cons x)

theorem mem_insertSorted {α : Type} {le : α → α → Bool} {a x : α} {l : List α} :
    x ∈ insertSorted le a l ↔ x = a ∨ x ∈ l := by
  rw [(insertSorted_perm le a l).mem_iff]
  simp

theorem insertSorted_sorted {α : Type} {le : α → α → Bool}
    (htot : ∀ a b, le a b = true ∨ le b a = true)
    (htrans : ∀ a b c, le a b = true → le b c = true → le a c = true)
    (a : α) : ∀ {l : List α}, SortedB le l → SortedB le (insertSorted le a l) := by
  intro l
  induction l with
  | nil => intro _; simp [insertSorted, SortedB]
  | cons b l ih =>
    intro hl
    rw [SortedB, List.pairwise_cons] at hl
    simp only [insertSorted]
    by_cases h : le a b
    · simp only [h, if_true]
      rw [SortedB, List.pairwise_cons]
      constructor
      · intro c hc
        rcases List.mem_cons.mp hc with rfl | hc
        · exact h
        · exact htrans a b c h (hl.1 c hc)
      · exact List.pairwise_cons.mpr hl
    · simp only [h, if_false, Bool.false_eq_true]
      have hba : le b a = true := by
        rcases htot a b with h' | h'
        · exact absurd h' h
        · exact h'
      rw [SortedB, List.pairwise_cons]
      constructor
      · intro c hc
        rcases mem_insertSorted.mp hc with rfl | hc
        · exact hba
        · exact hl.1 c hc
      · exact ih hl.2

theorem sortStable_sorted {α : Type} {le : α → α → Bool}
    (htot : ∀ a b, le a b = true ∨ le b a = true)
    (htrans : ∀ a b c, le a b = true → le b c = true → le a c = true) :
    ∀ l : List α, SortedB le (sortStable le l) := by
  intro l
  induction l with
  | nil => simp [sortStable, SortedB]
  | cons x xs ih => exact insertSorted_sorted htot htrans x ih

theorem insertSorted_eq_cons {α : Type} {le : α → α → Bool} {a : α} {l : List α}
    (h : ∀ b ∈ l, le a b = true) : insertSorted le a l = a :: l := by
  cases l with
  | nil => rfl
  | cons b l => simp [insertSorted, h b (by simp)]

theorem sortStable_eq_self {α : Type} {le : α → α → Bool} :
    ∀ {l : List α}, SortedB le l → sortStable le l = l := by
  intro l
  induction l with
  | nil => intro _; rfl
  | cons x xs ih =>
    intro hl
    rw [SortedB, List.pairwise_cons] at hl
    simp only [sortStable]
    rw [ih hl.2, insertSorted_eq_cons hl.1]

theorem filter_insertSorted_pos {α : Type} {le : α → α → Bool}
    (htrans : ∀ a b c, le a b = true → le b c = true → le a c = true)
    (p : α → Bool) {a : α} (hp : p a = true) :
    ∀ {l : List α}, SortedB le l →
      (insertSorted le a l).filter p = insertSorted le a (l.filter p) := by
  intro l
  induction l with
  | nil => intro _; simp [insertSorted, hp]
  | cons b l ih =>
    intro hl
    rw [SortedB, List.pairwise_cons] at hl
    simp only [insertSorted]
    by_cases hab : le a b
    · simp only [hab, if_true]
      by_cases pb : p b
      · simp [List.filter_cons, hp, pb, insertSorted, hab]
      · simp only [List.filter_cons, hp, pb, if_true, if_false]
        simp only [Bool.false_eq_true, if_false]
        rw [insertSorted_eq_cons]
        intro c hc
        exact htrans a b c hab (hl.1 c (List.mem_of_mem_filter hc))
    · simp only [hab, if_false, Bool.false_eq_true]
      by_cases pb : p b
      · simp only [List.filter_cons, pb, if_true]
        rw [ih hl.2]
        simp [insertSorted, hab]
      · simp only [List.filter_cons, pb, Bool.false_eq_true, if_false]
        exact ih hl.2

theorem filter_insertSorted_neg {α : Type} {le : α → α → Bool}
    (p : α → Bool) {a : α} (hp : p a = false) :
    ∀ l : List α, (insertSorted le a l).filter p = l.filter p := by
  intro l
  induction l with
  | nil => simp [insertSorted, hp]
  | cons b l ih =>
    simp only [insertSorted]
    by_cases hab : le a b
    · simp [hab, List.filter_cons, hp]
    · simp only [hab, if_false, Bool.false_eq_true]
      by_cases pb : p b <;> simp [List.filter_cons, pb, ih]

theorem filter_sortStable {α : Type} {le : α → α → Bool}
    (htot : ∀ a b, le a b = true ∨ le b a = true)
    (htrans : ∀ a b c, le a b = true → le b c = true → le a c = true)
    (p : α → Bool) :
    ∀ l : List α, (sortStable le l).filter p = sortStable le (l.filter p) := by
  intro l
  induction l with
  | nil => rfl
  | cons x xs ih =>
    simp only [sortStable]
    by_cases px : p x
    · rw [filter_insertSorted_pos htrans p px (sortStable_sorted htot htrans xs), ih,
        List.filter_cons, if_pos px]
      rfl
    · rw [filter_insertSorted_neg p (by simp [px]), ih, List.filter_cons]
      simp [px]

theorem insertSorted_append_notLe {α : Type} {le : α → α → Bool} {a : α} :
    ∀ {A : List α} (B : List α), (∀ b ∈ A, le a b = false) →
      insertSorted le a (A ++ B) = A ++ insertSorted le a B := by
  intro A
  induction A with
  | nil => intro B _; simp
  | cons c A ih =>
    intro B h
    have hc : le a c = false := h c (by simp)
    simp only [List.cons_append, insertSorted, hc, Bool.false_eq_true, if_false,
      List.append_eq]
    rw [ih B (fun b hb => h b (by simp [hb]))]

/-- nav.go's boolean "class first" comparators (`IsDir` first, hidden first)
stably partition: the class satisfying `p` keeps scan order in front, the
rest keeps scan order behind. -/
theorem sortStable_parts {α : Type} (p : α → Bool) :
    ∀ l : List α,
      sortStable (fun a b => !(p b && !(p a))) l
        = l.filter p ++ l.filter (fun a => !(p a)) := by
  intro l
  induction l with
  | nil => rfl
  | cons x xs ih =>
    simp only [sortStable, ih]
    by_cases hx : p x
    · have hle : ∀ b, (!(p b && !(p x))) = true := by intro b; simp [hx]
      have : insertSorted (fun a b => !(p b && !(p a))) x
          (xs.filter p ++ xs.filter (fun a => !(p a)))
          = x :: (xs.filter p ++ xs.filter (fun a => !(p a))) := by
        cases hL : xs.filter p ++ xs.filter (fun a => !(p a)) with
        | nil => simp [insertSorted]
        | cons c rest => simp [insertSorted, hle c]
      rw [this]
      simp [List.filter_cons, hx]
    · have h1 : ∀ b ∈ xs.filter p, (!(p b && !(p x))) = false := by
        intro b hb
        have := List.of_mem_filter hb
        simp [this, hx]
      rw [insertSorted_append_notLe (xs.filter (fun a => !(p a))) h1]
      have : insertSorted (fun a b => !(p b && !(p a))) x (xs.filter (fun a => !(p a)))
          = x :: xs.filter (fun a => !(p a)) := by
        cases hL : xs.filter (fun a => !(p a)) with
        | nil => simp [insertSorted]
        | cons c rest =>
          have hc : p c = false := by
            have : c ∈ xs.filter (fun a => !(p a)) := by rw [hL]; simp
            have := List.of_mem_filter this
            simpa using this
          simp [insertSorted, hc]
      rw [this]
      simp [List.filter_cons, hx]

/-! ### Comparator facts for each sort key -/

theorem le_lex_total {α : Type} (k : α → List Nat) :
    ∀ a b : α, (!(lexLtNat (k b) (k a))) = true ∨ (!(lexLtNat (k a) (k b))) = true := by
  intro a b
  by_cases h : lexLtNat (k b) (k a) = true
  · right
    by_cases h' : lexLtNat (k a) (k b) = true
    · exact absurd (lexLtNat_asymm _ _ h' h) (by simp)
    · simp [h']
  · left; simp [h]

theorem le_lex_trans {α : Type} (k : α → List Nat) :
    ∀ a b c : α, (!(lexLtNat (k b) (k a))) = true → (!(lexLtNat (k c) (k b))) = true →
      (!(lexLtNat (k c) (k a))) = true := by
  intro a b c h1 h2
  simp only [Bool.not_eq_true'] at h1 h2 ⊢
  by_cases hca : lexLtNat (k c) (k a) = true
  · by_cases hab : lexLtNat (k a) (k b) = true
    · exact absurd (lexLtNat_trans _ _ _ hca hab) (by simp [h2])
    · have : k a = k b := lexLtNat_eq_of_not _ _ (by simpa using hab) h1
      rw [this] at hca
      exact absurd hca (by simp [h2])
  · simpa using hca

theorem le_int_total {α : Type} (m : α → Int) :
    ∀ a b : α, (!(decide (m b < m a))) = true ∨ (!(decide (m a < m b))) = true := by
  intro a b
  simp only [Bool.not_eq_true', decide_eq_false_iff_not]
  omega

theorem le_int_trans {α : Type} (m : α → Int) :
    ∀ a b c : α, (!(decide (m b < m a))) = true → (!(decide (m c < m b))) = true →
      (!(decide (m c < m a))) = true := by
  intro a b c h1 h2
  simp only [Bool.not_eq_true', decide_eq_false_iff_not] at h1 h2 ⊢
  omega

theorem filter_filter_self {α : Type} (p : α → Bool) (X : List α) :
    (X.filter p).filter p = X.filter p :=
  List.filter_eq_self.mpr (fun _ ha => List.of_mem_filter ha)

theorem filter_filter_not {α : Type} (p : α → Bool) (X : List α) :
    (X.filter (fun a => !(p a))).filter p = [] := by
  refine List.filter_eq_nil_iff.mpr (fun a ha => ?_)
  have := List.of_mem_filter ha
  simp at this
  simp [this]

theorem filter_not_filter {α : Type} (p : α → Bool) (X : List α) :
    (X.filter p).filter (fun a => !(p a)) = [] := by
  refine List.filter_eq_nil_iff.mpr (fun a ha => ?_)
  have := List.of_mem_filter ha
  simp [this]

theorem sortStable_eq_of_sublist_sorted {α : Type} {le : α → α → Bool}
    {X l : List α} (h : l.Sublist X) (hX : SortedB le X) : sortStable le l = l :=
  sortStable_eq_self (List.Pairwise.sublist h hX)

theorem parts_sort_parts {α : Type} {le : α → α → Bool}
    (htot : ∀ a b, le a b = true ∨ le b a = true)
    (htrans : ∀ a b c, le a b = true → le b c = true → le a c = true)
    (q : α → Bool) {X : List α} (hX : SortedB le X) :
    partsFn q (sortStable le (partsFn q X)) = partsFn q X := by
  have h1 : (partsFn q X).filter q = X.filter q := by
    rw [partsFn, List.filter_append, filter_filter_self, filter_filter_not,
      List.append_nil]
  have h2 : (partsFn q X).filter (fun a => !(q a)) = X.filter (fun a => !(q a)) := by
    rw [partsFn, List.filter_append, filter_not_filter, filter_filter_self,
      List.nil_append]
  show (sortStable le (partsFn q X)).filter q
      ++ (sortStable le (partsFn q X)).filter (fun a => !(q a)) = partsFn q X
  rw [filter_sortStable htot htrans, filter_sortStable htot htrans, h1, h2,
    sortStable_eq_of_sublist_sorted (List.filter_sublist X) hX,
    sortStable_eq_of_sublist_sorted (List.filter_sublist X) hX, partsFn]

theorem filter_swap_self {α : Type} (p q : α → Bool) (X : List α) :
    ((X.filter p).filter q).filter p = (X.filter p).filter q :=
  List.filter_eq_self.mpr (fun _ ha => List.of_mem_filter (List.mem_of_mem_filter ha))

theorem filter_swap_nil {α : Type} (p q : α → Bool) (X : List α) :
    ((X.filter (fun a => !(p a))).filter q).filter p = [] := by
  refine List.filter_eq_nil_iff.mpr (fun a ha => ?_)
  have := List.of_mem_filter (List.mem_of_mem_filter ha)
  simp at this
  simp [this]

theorem filter_swap_nil' {α : Type} (p q : α → Bool) (X : List α) :
    ((X.filter p).filter q).filter (fun a => !(p a)) = [] := by
  refine List.filter_eq_nil_iff.mpr (fun a ha => ?_)
  have := List.of_mem_filter (List.mem_of_mem_filter ha)
  simp [this]

theorem parts2_sort_parts2 {α : Type} {le : α → α → Bool}
    (htot : ∀ a b, le a b = true ∨ le b a = true)
    (htrans : ∀ a b c, le a b = true → le b c = true → le a c = true)
    (q1 q2 : α → Bool) {X : List α} (hX : SortedB le X) :
    partsFn q2 (partsFn q1 (sortStable le (partsFn q2 (partsFn q1 X))))
      = partsFn q2 (partsFn q1 X) := by
  have hsubA : (((X.filter q1).filter q2)).Sublist X :=
    (List.filter_sublist _).trans (List.filter_sublist X)
  have hsubB : (((X.filter (fun a => !(q1 a))).filter q2)).Sublist X :=
    (List.filter_sublist _).trans (List.filter_sublist X)
  have hsubC : (((X.filter q1).filter (fun a => !(q2 a)))).Sublist X :=
    (List.filter_sublist _).trans (List.filter_sublist X)
  have hsubE : (((X.filter (fun a => !(q1 a))).filter (fun a => !(q2 a)))).Sublist X :=
    (List.filter_sublist _).trans (List.filter_sublist X)
  simp only [partsFn, List.filter_append, filter_sortStable htot htrans,
    filter_swap_self, filter_swap_nil, filter_swap_nil',
    filter_filter_self, filter_filter_not, filter_not_filter,
    List.append_nil, List.nil_append]
  rw [sortStable_eq_of_sublist_sorted hsubA hX,
    sortStable_eq_of_sublist_sorted hsubB hX,
    sortStable_eq_of_sublist_sorted hsubC hX,
    sortStable_eq_of_sublist_sorted hsubE hX]

theorem sortStable_const_true {α : Type} :
    ∀ l : List α, sortStable (fun _ _ => true) l = l := by
  intro l
  induction l with
  | nil => rfl
  | cons x xs ih =>
    simp only [sortStable, ih]
    exact insertSorted_eq_cons (fun _ _ => rfl)

/-- The dirs-first pass of nav.go `dir.sort` is the stable partition
putting directories first. -/
theorem sortDirFirst_parts (l : List file) :
    sortFilesStable (fun a b => a.IsDir && !(b.IsDir)) l = partsFn file.IsDir l := by
  simp only [sortFilesStable, partsFn]
  exact sortStable_parts file.IsDir l

/-- The hidden pass of nav.go `dir.sort` is the stable partition putting
dot-entries first. -/
theorem sortHid_parts (l : List file) :
    sortFilesStable (fun a b => a.hiddenB && !(b.hiddenB)) l = partsFn file.hiddenB l := by
  simp only [sortFilesStable, partsFn]
  exact sortStable_parts file.hiddenB l

/-- Every key pass of `dir.sort` is a stable sort by a total transitive
comparator (an unknown key sorts by the everywhere-true comparator, i.e.
not at all). -/
theorem sortByKey_spec (sortby : String) :
    ∃ le : file → file → Bool,
      (∀ l, sortByKey sortby l = sortStable le l) ∧
      (∀ a b, le a b = true ∨ le b a = true) ∧
      (∀ a b c, le a b = true → le b c = true → le a c = true) := by
  by_cases h1 : sortby = "natural"
  · subst h1
    refine ⟨fun a b => !(naturalLess (strCodesLower b.Name) (strCodesLower a.Name)),
      fun l => rfl, ?_, ?_⟩
    · intro a b
      simp only [naturalLess]
      exact le_lex_total (fun f : file => natKey (strCodesLower f.Name)) a b
    · intro a b c
      simp only [naturalLess]
      exact le_lex_trans (fun f : file => natKey (strCodesLower f.Name)) a b c
  · by_cases h2 : sortby = "name"
    · subst h2
      refine ⟨fun a b => !(lexLtNat (strCodesLower b.Name) (strCodesLower a.Name)),
        fun l => rfl, ?_, ?_⟩
      · exact le_lex_total (fun f : file => strCodesLower f.Name)
      · exact le_lex_trans (fun f : file => strCodesLower f.Name)
    · by_cases h3 : sortby = "size"
      · subst h3
        exact ⟨fun a b => !(decide (b.Size < a.Size)), fun l => rfl,
          le_int_total file.Size, le_int_trans file.Size⟩
      · by_cases h4 : sortby = "time"
        · subst h4
          exact ⟨fun a b => !(decide (b.ModTime < a.ModTime)), fun l => rfl,
            le_int_total file.ModTime, le_int_trans file.ModTime⟩
        · refine ⟨fun _ _ => true, fun l => ?_, fun a b => Or.inl rfl,
            fun a b c _ _ => rfl⟩
          rw [sortStable_const_true]
          simp [sortByKey, h1, h2, h3, h4]

/-- Without the reverse pass, the `dir.sort` pipeline is idempotent. -/
theorem stagesAll_idem (sortby : String) (df hid : Bool) (l : List file) :
    stagesAll sortby df hid (stagesAll sortby df hid l) = stagesAll sortby df hid l := by
  obtain ⟨le, hkey, htot, htrans⟩ := sortByKey_spec sortby
  have hsorted := sortStable_sorted htot htrans l
  cases df <;> cases hid <;>
    simp only [stagesAll, dirPassFn, hidPassFn, if_true, if_false, Bool.false_eq_true,
      ite_true, ite_false, sortDirFirst_parts, sortHid_parts, hkey]
  · exact parts_sort_parts htot htrans file.hiddenB hsorted
  · exact sortStable_eq_self (sortStable_sorted htot htrans l)
  · exact parts2_sort_parts2 htot htrans file.IsDir file.hiddenB hsorted
  · exact parts_sort_parts htot htrans file.IsDir hsorted

/-- With the reverse pass disabled, `dir.sort` computes `stagesAll` on the
shared array and derives the visible view from it. -/
theorem dirSort_eq_stages (cfg : Config) (hrev : cfg.reverse = false) (d : dir) :
    (dir.sort cfg d).all = stagesAll cfg.sortby cfg.dirfirst cfg.hidden d.all ∧
    (dir.sort cfg d).fi =
      (if cfg.hidden then stagesAll cfg.sortby cfg.dirfirst cfg.hidden d.all
       else (stagesAll cfg.sortby cfg.dirfirst cfg.hidden d.all).dropWhile file.hiddenB) := by
  unfold dir.sort stagesAll dirPassFn hidPassFn
  rw [hrev]
  cases hh : cfg.hidden <;> simp

/-! ### The hidden trim -/

theorem dropWhile_append_of_all {α : Type} {p : α → Bool} {A : List α} (B : List α)
    (h : ∀ a ∈ A, p a = true) : (A ++ B).dropWhile p = B.dropWhile p := by
  induction A with
  | nil => simp
  | cons c A ih =>
    rw [List.cons_append, List.dropWhile_cons, if_pos (h c (by simp))]
    exact ih (fun a ha => h a (by simp [ha]))

theorem dropWhile_filter_not {α : Type} (p : α → Bool) (X : List α) :
    (X.filter (fun a => !(p a))).dropWhile p = X.filter (fun a => !(p a)) := by
  cases hL : X.filter (fun a => !(p a)) with
  | nil => simp
  | cons c rest =>
    have hmem : c ∈ X.filter (fun a => !(p a)) := by rw [hL]; simp
    have hc := List.of_mem_filter hmem
    simp only [Bool.not_eq_true'] at hc
    rw [List.dropWhile_cons, if_neg (by simp [hc])]

/-- Trimming the leading hidden block of a hidden-first partition leaves
exactly the non-hidden entries, in order. -/
theorem dropWhile_partsFn {α : Type} (p : α → Bool) (M : List α) :
    (partsFn p M).dropWhile p = M.filter (fun a => !(p a)) := by
  rw [partsFn, dropWhile_append_of_all _ (fun a ha => List.of_mem_filter ha),
    dropWhile_filter_not]

/-- With hidden files suppressed, `dir.sort` ends in the hidden-first
partition of some intermediate list `M`, and trims the visible view. -/
theorem dirSort_hidden_false (cfg : Config) (hh : cfg.hidden = false) (d : dir) :
    ∃ M : List file, (dir.sort cfg d).all = partsFn file.hiddenB M ∧
      (dir.sort cfg d).fi = (partsFn file.hiddenB M).dropWhile file.hiddenB := by
  unfold dir.sort
  rw [hh]
  simp only [Bool.false_eq_true, if_false]
  exact ⟨_, by rw [sortHid_parts], by rw [sortHid_parts]⟩

/-! ### Permutation facts for the whole pipeline -/

theorem sortFilesStable_perm (less : file → file → Bool) (l : List file) :
    (sortFilesStable less l).Perm l :=
  sortStable_perm _ l

theorem sortByKey_perm (sortby : String) (l : List file) :
    (sortByKey sortby l).Perm l := by
  obtain ⟨le, hkey, _, _⟩ := sortByKey_spec sortby
  rw [hkey]
  exact sortStable_perm le l

theorem dirSort_all_perm (cfg : Config) (d : dir) :
    ((dir.sort cfg d).all).Perm d.all := by
  have key : (sortByKey cfg.sortby d.all).Perm d.all := sortByKey_perm cfg.sortby d.all
  have rev : (if cfg.reverse then (sortByKey cfg.sortby d.all).reverse
      else sortByKey cfg.sortby d.all).Perm d.all := by
    cases cfg.reverse
    · simpa using key
    · simpa using (List.reverse_perm _).trans key
  have dfp : (if cfg.dirfirst then
        sortFilesStable (fun a b => a.IsDir && !(b.IsDir))
          (if cfg.reverse then (sortByKey cfg.sortby d.all).reverse
           else sortByKey cfg.sortby d.all)
      else (if cfg.reverse then (sortByKey cfg.sortby d.all).reverse
           else sortByKey cfg.sortby d.all)).Perm d.all := by
    cases cfg.dirfirst
    · simpa using rev
    · simpa using (sortFilesStable_perm _ _).trans rev
  unfold dir.sort
  cases cfg.hidden
  · simpa using (sortFilesStable_perm _ _).trans dfp
  · simpa using dfp

/-! ## Claim C2 -/

/-- C2, counterexample.  The claim states that the sort operation leaves the
`all` sequence unchanged in element identity and order.  It does not: in Go
`dir.fi` and `dir.all` are the same backing array and every sorting pass is
in place, so sorting two name-sorted files `[b, a]` reorders `all` itself. -/
theorem c2_counterexample : (dir.sort cfgC2 dC2).all ≠ dC2.all := by decide

/-- C2, amended.  The sort operation permutes `all` in place: its element
multiset is preserved (nothing is added or dropped) but its order generally
changes, since the visible view and `all` share one array.  The second
conjunct is the claim's true half: the result — both `visible` and the
permuted `all` — is a function of the previous `all` alone, never of the
previous `visible` (nav.go resets `dir.fi = dir.all` before sorting). -/
theorem c2_sort_perm_and_visible_from_all : ∀ (cfg : Config) (d : dir),
    ((dir.sort cfg d).all).Perm d.all ∧
    ∀ d' : dir, d'.all = d.all →
      (dir.sort cfg d').fi = (dir.sort cfg d).fi ∧
      (dir.sort cfg d').all = (dir.sort cfg d).all := by
  intro cfg d
  refine ⟨dirSort_all_perm cfg d, ?_⟩
  intro d' h
  unfold dir.sort
  rw [h]
  cases cfg.hidden <;> simp

/-- C2, witness: the amended statement applied at a two-file listing, with a
second listing sharing `all` but differing in `fi` and cursor. -/
theorem c2_witness :
    dC2'.all = dC2.all ∧
    ((dir.sort cfgC2 dC2).all).Perm dC2.all ∧
    (dir.sort cfgC2 dC2').fi = (dir.sort cfgC2 dC2).fi :=
  ⟨by decide, (c2_sort_perm_and_visible_from_all cfgC2 dC2).1,
    ((c2_sort_perm_and_visible_from_all cfgC2 dC2).2 dC2' (by decide)).1⟩

/-! ## Claim C3 -/

/-- C3, counterexample.  Sorting is not idempotent for every configuration:
with `reverse` on and two entries of equal size, the stable key sort keeps
the current order and the reverse pass then flips it, so each run of the
sort swaps the tied pair. -/
theorem c3_counterexample :
    (dir.sort cfgC3 (dir.sort cfgC3 dC3)).fi ≠ (dir.sort cfgC3 dC3).fi := by decide

/-- C3, amended.  With the `reverse` option off, sorting is idempotent for
every listing and every sort key / dirfirst / hidden configuration: a second
run reproduces both the shared array and the visible view.  (With `reverse`
on, entries comparing equal under the key swap order on every re-sort, as
the counterexample shows.) -/
theorem c3_sort_idem_no_reverse : ∀ cfg : Config, cfg.reverse = false → ∀ d : dir,
    (dir.sort cfg (dir.sort cfg d)).all = (dir.sort cfg d).all ∧
    (dir.sort cfg (dir.sort cfg d)).fi = (dir.sort cfg d).fi := by
  intro cfg hrev d
  obtain ⟨ha1, hf1⟩ := dirSort_eq_stages cfg hrev d
  obtain ⟨ha2, hf2⟩ := dirSort_eq_stages cfg hrev (dir.sort cfg d)
  have hidem := stagesAll_idem cfg.sortby cfg.dirfirst cfg.hidden d.all
  constructor
  · rw [ha2, ha1, hidem]
  · rw [hf2, ha1, hidem, hf1]

/-- C3, witness: idempotence applied at a four-entry listing (hidden entry,
directory, two ties) under size sort with dirfirst on and hidden off. -/
theorem c3_witness :
    cfgC3w.reverse = false ∧
    (dir.sort cfgC3w (dir.sort cfgC3w dC3w)).fi = (dir.sort cfgC3w dC3w).fi :=
  ⟨rfl, (c3_sort_idem_no_reverse cfgC3w rfl dC3w).2⟩

/-! ## Claim C7 -/

/-- C7: after `dir.sort` with hidden files suppressed, no visible entry's
name begins with a dot, and the visible view is a contiguous final segment
of the (shared, sorted) `all` array — so the relative order of visible
entries is exactly their relative order in `all`. -/
theorem c7_sort_hides_dotfiles : ∀ cfg : Config, cfg.hidden = false → ∀ d : dir,
    (∀ f ∈ (dir.sort cfg d).fi, f.hiddenB = false) ∧
    ∃ t, (dir.sort cfg d).all = t ++ (dir.sort cfg d).fi := by
  intro cfg hh d
  obtain ⟨M, hall, hfi⟩ := dirSort_hidden_false cfg hh d
  rw [hfi, dropWhile_partsFn]
  constructor
  · intro f hf
    have := List.of_mem_filter hf
    simpa using this
  · exact ⟨M.filter file.hiddenB, by rw [hall, partsFn]⟩

/-- C7, witness: the spec's own example — entries `[b, a, .h]`, name sort,
hidden disabled — flows through the theorem and yields visible `[a, b]`. -/
theorem c7_witness :
    cfgC7.hidden = false ∧
    (∀ f ∈ (dir.sort cfgC7 dC7).fi, f.hiddenB = false) ∧
    (∃ t, (dir.sort cfgC7 dC7).all = t ++ (dir.sort cfgC7 dC7).fi) ∧
    (dir.sort cfgC7 dC7).fi = [fxA, fxB] :=
  ⟨rfl, (c7_sort_hides_dotfiles cfgC7 rfl dC7).1,
    (c7_sort_hides_dotfiles cfgC7 rfl dC7).2, by decide⟩

/-! ## Claim C8 -/

/-- C8, counterexample.  The claim states that a non-not-found lstat error
is logged/skipped and the scan still processes all remaining entries.  It
does not: `readdir` does `return fi, lerr` on such an error, so with names
`[bad, ok]` where `bad` fails with a permission error and `ok` would stat
fine, the result contains no entry at all — `ok` was never processed. -/
theorem c8_counterexample :
    readdir fsC8 "/d" = ([], some "permission denied") ∧
    fsC8.lstat "/d/ok" = LstatRes.ok { name := "ok" } := by
  constructor <;> decide

/-- C8, amended.  (i) A vanished entry (not-found lstat) is silently
dropped and the scan continues exactly as if the name were absent.
(ii) As long as every name lstats successfully, every entry is produced —
in particular a bad symlink (failed `os.Stat`) never aborts the scan, and
an enumeration error is returned only alongside the full entry list.
(iii) But any other lstat error aborts the scan immediately, returning only
the entries accumulated so far with the error — remaining names are not
processed. -/
theorem c8_scan_error_handling :
    (∀ (fs : FS) (path : String) (acc : List file) (names1 names2 : List String) (n : String),
       fs.lstat (joinPath path n) = LstatRes.notFound →
       readdirLoop fs path acc (names1 ++ n :: names2)
         = readdirLoop fs path acc (names1 ++ names2)) ∧
    (∀ (fs : FS) (path : String) (acc : List file) (names : List String),
       (∀ n ∈ names, ∃ i, fs.lstat (joinPath path n) = LstatRes.ok i) →
       (readdirLoop fs path acc names).1.length = acc.length + names.length ∧
       (readdirLoop fs path acc names).2 = fs.readNamesErr path) ∧
    (∀ (fs : FS) (path : String) (acc : List file) (names : List String) (n e : String),
       fs.lstat (joinPath path n) = LstatRes.err e →
       readdirLoop fs path acc (n :: names) = (acc, some e)) := by
  refine ⟨?_, ?_, ?_⟩
  · intro fs path acc names1 names2 n h
    induction names1 generalizing acc with
    | nil => simp [readdirLoop, readdirStep, h]
    | cons m names1 ih =>
      simp only [List.cons_append, readdirLoop]
      rcases hm : readdirStep fs (joinPath path m) with _ | e | f
      · exact ih acc
      · rfl
      · exact ih (acc ++ [f])
  · intro fs path acc names h
    induction names generalizing acc with
    | nil => simp [readdirLoop]
    | cons n rest ih =>
      obtain ⟨i, hi⟩ := h n (by simp)
      obtain ⟨f, hf⟩ : ∃ f, readdirStep fs (joinPath path n) = ScanStep.keep f := by
        simp only [readdirStep, hi]
        by_cases hs : i.isSymlink = true
        · rw [if_pos hs]
          cases fs.stat (joinPath path n) <;> exact ⟨_, rfl⟩
        · rw [if_neg hs]
          exact ⟨_, rfl⟩
      simp only [readdirLoop, hf]
      obtain ⟨hl, he⟩ := ih (acc ++ [f]) (fun m hm => h m (by simp [hm]))
      refine ⟨?_, he⟩
      rw [hl]
      simp only [List.length_append, List.length_cons, List.length_nil]
      omega
  · intro fs path acc names n e h
    simp [readdirLoop, readdirStep, h]

/-- C8, witness: the amended statement at concrete data — a vanished name
in the middle of the scan is dropped, a directory of one broken symlink and
one regular file still yields two entries, and an lstat error aborts. -/
theorem c8_witness :
    ((fsW8.lstat (joinPath "/d" "gone") = LstatRes.notFound) ∧
      readdirLoop fsW8 "/d" [] (["s"] ++ "gone" :: ["x"])
        = readdirLoop fsW8 "/d" [] (["s"] ++ ["x"])) ∧
    ((readdirLoop fsW8 "/d" [] ["s", "x"]).1.length = 0 + 2) ∧
    (readdirLoop fsC8 "/d" [] ("bad" :: ["ok"]) = ([], some "permission denied")) := by
  refine ⟨⟨by decide, c8_scan_error_handling.1 fsW8 "/d" [] ["s"] ["x"] "gone" (by decide)⟩,
    ?_, c8_scan_error_handling.2.2 fsC8 "/d" [] ["ok"] "bad" "permission denied" (by decide)⟩
  refine (c8_scan_error_handling.2.1 fsW8 "/d" [] ["s", "x"] ?_).1
  intro n hn
  rcases List.mem_cons.mp hn with rfl | hn
  · exact ⟨{ name := "s", isSymlink := true }, by decide⟩
  · rcases List.mem_cons.mp hn with rfl | hn
    · exact ⟨{ name := "x" }, by decide⟩
    · simp at hn

/-! ## Claim C5 -/

/-- C5: contrary to the spec's "no condition in this core terminates the
process", the refresh worker panics when `os.Stat` on a stacked directory's
path fails (directory deleted between loads): after logging, the code calls
`s.ModTime()` on the nil FileInfo, a nil-interface method call.  Evaluating
the embedded worker at such an input reaches the panic case. -/
theorem c5_renew_stat_failure_panics :
    renewWorker fsC5 {} 100 dC5
      = Except.error "panic: runtime error: invalid memory address or nil pointer dereference" :=
  rfl

/-! ## Claim C6 -/

theorem tdivBounds (h : Int) (hh : 1 ≤ h) :
    0 ≤ Int.tdiv h 2 + Int.tmod h 2 - 1 ∧ Int.tdiv h 2 + Int.tmod h 2 - 1 ≤ h - 1 := by
  rcases h with n | n
  · have e1 : Int.tdiv (Int.ofNat n) 2 = Int.ofNat (n / 2) := rfl
    have e2 : Int.tmod (Int.ofNat n) 2 = Int.ofNat (n % 2) := rfl
    rw [e1, e2]
    simp only [Int.ofNat_eq_natCast] at hh ⊢
    omega
  · rw [Int.negSucc_eq] at hh
    omega

theorem upDir_inv {cfg : Config} {height dist : Int} {d : dir}
    (hI : listingInv height d) (hd : 0 ≤ dist)
    (hs0 : 0 ≤ cfg.scrolloff) (hs1 : cfg.scrolloff ≤ height - 1) :
    listingInv height (upDir cfg dist d) := by
  obtain ⟨h1, h2, h3, h4, h5, h6⟩ := hI
  unfold upDir
  by_cases h0 : d.ind = 0
  · rw [if_pos h0]
    exact ⟨h1, h2, h3, h4, h5, h6⟩
  · rw [if_neg h0]
    by_cases hlen : d.fi.length = 0
    · exact absurd (h5 hlen).1 h0
    · have h6' := h6 hlen
      refine ⟨?_, ?_, ?_, ?_, ?_, ?_⟩ <;> dsimp only <;> intros <;> omega

theorem downDir_inv {cfg : Config} {height dist : Int} {d : dir}
    (hI : listingInv height d) (hd : 0 ≤ dist) (hh : 1 ≤ height)
    (hs0 : 0 ≤ cfg.scrolloff) :
    listingInv height (downDir cfg height dist d) := by
  obtain ⟨h1, h2, h3, h4, h5, h6⟩ := hI
  obtain ⟨ht0, ht1⟩ := tdivBounds height hh
  unfold downDir
  by_cases h0 : (d.fi.length : Int) - 1 ≤ d.ind
  · rw [if_pos h0]
    exact ⟨h1, h2, h3, h4, h5, h6⟩
  · rw [if_neg h0]
    have hlen : d.fi.length ≠ 0 := by
      intro h
      rw [h] at h0
      simp at h0
      omega
    have h6' := h6 hlen
    refine ⟨?_, ?_, ?_, ?_, ?_, ?_⟩ <;> dsimp only <;> intros <;> omega

theorem findDir_inv {cfg : Config} {height : Int} {name : String} {d : dir}
    (hI : listingInv height d) (hh : 1 ≤ height)
    (hs0 : 0 ≤ cfg.scrolloff) (hs1 : cfg.scrolloff ≤ height - 1) :
    listingInv height (dir.find cfg name height d) := by
  obtain ⟨h1, h2, h3, h4, h5, h6⟩ := hI
  unfold dir.find
  by_cases hlen : d.fi.length = 0
  · rw [if_pos hlen]
    refine ⟨?_, ?_, ?_, ?_, ?_, ?_⟩ <;> dsimp only <;> intros <;> omega
  · rw [if_neg hlen]
    have h6' := h6 hlen
    have hind2 : 0 ≤ (if nameAt d.fi (min d.ind ((d.fi.length : Int) - 1))
            = name then min d.ind ((d.fi.length : Int) - 1)
          else
            match d.fi.findIdx? (fun f => f.Name == name) with
            | some i => (i : Int)
            | none => min d.ind ((d.fi.length : Int) - 1)) ∧
        (if nameAt d.fi (min d.ind ((d.fi.length : Int) - 1))
            = name then min d.ind ((d.fi.length : Int) - 1)
          else
            match d.fi.findIdx? (fun f => f.Name == name) with
            | some i => (i : Int)
            | none => min d.ind ((d.fi.length : Int) - 1)) < (d.fi.length : Int) := by
      split
      · omega
      · cases hidx : d.fi.findIdx? (fun f => f.Name == name) with
        | none => dsimp only; omega
        | some i =>
          dsimp only
          have := List.findIdx?_eq_some_iff_findIdx_eq.mp hidx
          constructor
          · omega
          · exact_mod_cast this.1
    refine ⟨?_, ?_, ?_, ?_, ?_, ?_⟩ <;> dsimp only <;> intros <;> omega

theorem topDir_inv {height : Int} {d : dir} (hh : 1 ≤ height) :
    listingInv height (topDir d) := by
  unfold topDir listingInv
  refine ⟨?_, ?_, ?_, ?_, ?_, ?_⟩ <;> dsimp only <;> intros <;> omega

theorem botDir_inv {height : Int} {d : dir} (hh : 1 ≤ height) (hne : d.fi ≠ []) :
    listingInv height (botDir height d) := by
  have hlen : d.fi.length ≠ 0 := by simpa using hne
  unfold botDir listingInv
  refine ⟨?_, ?_, ?_, ?_, ?_, ?_⟩ <;> dsimp only <;> intros <;> omega

/-- C6, counterexample.  The claim quantifies over every starting state and
every distance/height/scrolloff value, including `bot` on an empty visible
list — but `nav.bot` sets `ind = len(fi) - 1 = -1` (and `pos = -1`) on an
empty Listing, violating the invariant it started from. -/
theorem c6_counterexample :
    listingInv 1 dEmptyC6 ∧ ¬ listingInv 1 (botDir 1 dEmptyC6) := by decide

/-- C6, amended.  The cursor operations preserve the Listing invariants for
every starting state satisfying them, provided the parameters are in their
operating ranges: distance ≥ 0, height ≥ 1, `0 ≤ scrolloff ≤ height - 1`
(a scrolloff at least the height can push `pos` past `height - 1` in `up`
and below 0 in `find`), and — for `bot` only — a nonempty visible list (on
an empty Listing `bot` sets `ind = pos = -1`). -/
theorem c6_cursor_ops_preserve_inv :
    ∀ (cfg : Config) (height dist : Int) (name : String) (d : dir),
      listingInv height d → 0 ≤ dist → 1 ≤ height →
      0 ≤ cfg.scrolloff → cfg.scrolloff ≤ height - 1 →
      listingInv height (upDir cfg dist d) ∧
      listingInv height (downDir cfg height dist d) ∧
      listingInv height (dir.find cfg name height d) ∧
      listingInv height (topDir d) ∧
      (d.fi ≠ [] → listingInv height (botDir height d)) := by
  intro cfg height dist name d hI hd hh hs0 hs1
  exact ⟨upDir_inv hI hd hs0 hs1, downDir_inv hI hd hh hs0,
    findDir_inv hI hh hs0 hs1, topDir_inv hh, fun hne => botDir_inv hh hne⟩

/-- C6, witness: the amended statement applied at a three-entry Listing
with height 3, scrolloff 1, distance 1. -/
theorem c6_witness :
    listingInv 3 dC6 ∧ 0 ≤ (1 : Int) ∧ 1 ≤ (3 : Int) ∧
    0 ≤ cfgC6.scrolloff ∧ cfgC6.scrolloff ≤ 3 - 1 ∧
    listingInv 3 (upDir cfgC6 1 dC6) ∧
    listingInv 3 (downDir cfgC6 3 1 dC6) ∧
    listingInv 3 (dir.find cfgC6 "a" 3 dC6) ∧
    listingInv 3 (topDir dC6) ∧
    listingInv 3 (botDir 3 dC6) :=
  have h := c6_cursor_ops_preserve_inv cfgC6 3 1 "a" dC6 (by decide) (by decide)
    (by decide) (by decide) (by decide)
  ⟨by decide, by decide, by decide, by decide, by decide,
    h.1, h.2.1, h.2.2.1, h.2.2.2.1, h.2.2.2.2 (by decide)⟩

/-! ### Association list lemmas -/

theorem alookup_aset_self {α : Type} (m : List (String × α)) (k : String) (v : α) :
    alookup (aset m k v) k = some v := by
  simp [aset, alookup]

theorem alookup_filter_ne {α : Type} {m : List (String × α)} {k k' : String}
    (h : k' ≠ k) :
    alookup (m.filter (fun p => !(p.1 == k))) k' = alookup m k' := by
  induction m with
  | nil => rfl
  | cons a m ih =>
    by_cases hk : (a.1 == k) = true
    · have hk' : (a.1 == k') = false := by
        simp only [beq_iff_eq] at hk
        simp only [beq_eq_false_iff_ne, ne_eq, hk]
        exact fun he => h he.symm
      simp [List.filter_cons, hk, alookup, hk', ih]
    · by_cases hp : (a.1 == k') = true <;>
        simp [List.filter_cons, hk, alookup, hp, ih]

theorem alookup_aset_ne {α : Type} {m : List (String × α)} {k k' : String} (v : α)
    (h : k' ≠ k) : alookup (aset m k v) k' = alookup m k' := by
  have hk : (k == k') = false := by
    simp only [beq_eq_false_iff_ne, ne_eq]
    exact fun he => h he.symm
  simp only [aset, alookup, hk, Bool.false_eq_true, if_false]
  exact alookup_filter_ne h

theorem alookup_aset_isSome {α : Type} {m : List (String × α)} {k k' : String} (v : α)
    (h : (alookup m k').isSome) : (alookup (aset m k v) k').isSome := by
  by_cases he : k' = k
  · subst he
    rw [alookup_aset_self]
    rfl
  · rw [alookup_aset_ne v he]
    exact h

/-! ## Claim C4 -/

theorem loadDir_dirs (nv : nav) (p : String) : (nav.loadDir nv p).2.1.dirs = nv.dirs := by
  unfold nav.loadDir
  cases alookup nv.dirCache p <;> rfl

theorem stepLoad_keeps_cached {nv : nav} {p : String} (s : LoadStep)
    (h : (alookup nv.dirCache p).isSome) :
    (alookup (stepLoad nv s).1.dirCache p).isSome := by
  cases s with
  | request q =>
    simp only [stepLoad]
    unfold nav.loadDir
    cases hq : alookup nv.dirCache q with
    | some d => exact h
    | none => exact alookup_aset_isSome _ h
  | deliver d =>
    simp only [stepLoad, deliverDir]
    exact alookup_aset_isSome _ h

theorem stepLoad_no_spawn_of_cached {nv : nav} {p : String} (s : LoadStep)
    (h : (alookup nv.dirCache p).isSome) :
    (stepLoad nv s).2.count p = 0 := by
  cases s with
  | request q =>
    simp only [stepLoad]
    unfold nav.loadDir
    cases hq : alookup nv.dirCache q with
    | some d => rfl
    | none =>
      by_cases he : q = p
      · subst he
        rw [hq] at h
        simp at h
      · simp [List.count_cons, he]
  | deliver d => rfl

/-- C4: (i) the first `loadDir` request for an uncached path returns the
`loading = true` placeholder, has inserted it into the cache by the time
the call returns, and spawned exactly one scan for that path; (ii) a
request for a cached path (loading placeholder or finished Listing alike)
returns the cached entry, changes nothing, and spawns nothing; (iii) over
any sequence of requests and channel deliveries, at most one scan is ever
spawned for a path — none at all if it starts out cached. -/
theorem c4_loadDir_dedup :
    (∀ (nv : nav) (p : String), alookup nv.dirCache p = none →
       (nav.loadDir nv p).1 = { loading := true, path := p } ∧
       alookup (nav.loadDir nv p).2.1.dirCache p = some { loading := true, path := p } ∧
       (nav.loadDir nv p).2.2 = [p]) ∧
    (∀ (nv : nav) (p : String) (d : dir), alookup nv.dirCache p = some d →
       (nav.loadDir nv p).1 = d ∧ (nav.loadDir nv p).2.1 = nv ∧
       (nav.loadDir nv p).2.2 = []) ∧
    (∀ (steps : List LoadStep) (nv : nav) (p : String),
       (runLoads nv steps).2.count p
         ≤ if (alookup nv.dirCache p).isSome then 0 else 1) := by
  refine ⟨?_, ?_, ?_⟩
  · intro nv p h
    unfold nav.loadDir
    rw [h]
    exact ⟨rfl, alookup_aset_self _ _ _, rfl⟩
  · intro nv p d h
    unfold nav.loadDir
    rw [h]
    exact ⟨rfl, rfl, rfl⟩
  · intro steps
    induction steps with
    | nil =>
      intro nv p
      simp only [runLoads, List.count_nil]
      split <;> omega
    | cons s rest ih =>
      intro nv p
      simp only [runLoads, List.count_append]
      by_cases h : (alookup nv.dirCache p).isSome
      · have h1 := stepLoad_no_spawn_of_cached s h
        have h2 := stepLoad_keeps_cached s h
        have h3 := ih (stepLoad nv s).1 p
        rw [if_pos h2] at h3
        rw [if_pos h, h1]
        omega
      · rw [if_neg h]
        cases s with
        | request q =>
          by_cases he : q = p
          · subst he
            have hq : alookup nv.dirCache q = none := by
              cases hl : alookup nv.dirCache q
              · rfl
              · rw [hl] at h
                simp at h
            have hcached : (alookup (stepLoad nv (LoadStep.request q)).1.dirCache q).isSome := by
              simp only [stepLoad]
              unfold nav.loadDir
              rw [hq]
              dsimp only
              rw [alookup_aset_self]
              rfl
            have h3 := ih (stepLoad nv (LoadStep.request q)).1 q
            rw [if_pos hcached] at h3
            have hsp : (stepLoad nv (LoadStep.request q)).2.count q ≤ 1 := by
              simp only [stepLoad]
              unfold nav.loadDir
              rw [hq]
              simp [List.count_cons]
            omega
          · have hsp : (stepLoad nv (LoadStep.request q)).2.count p = 0 := by
              simp only [stepLoad]
              unfold nav.loadDir
              cases alookup nv.dirCache q
              · simp [List.count_cons]
                exact he
              · rfl
            have h3 := ih (stepLoad nv (LoadStep.request q)).1 p
            have hle : (runLoads (stepLoad nv (LoadStep.request q)).1 rest).2.count p ≤ 1 := by
              rcases hcc : (alookup (stepLoad nv (LoadStep.request q)).1.dirCache p).isSome with _ | _
              · rw [hcc] at h3
                simpa using h3
              · rw [hcc] at h3
                simp at h3
                omega
            omega
        | deliver d =>
          have hsp : (stepLoad nv (LoadStep.deliver d)).2.count p = 0 := rfl
          have h3 := ih (stepLoad nv (LoadStep.deliver d)).1 p
          have hle : (runLoads (stepLoad nv (LoadStep.deliver d)).1 rest).2.count p ≤ 1 := by
            rcases hcc : (alookup (stepLoad nv (LoadStep.deliver d)).1.dirCache p).isSome with _ | _
            · rw [hcc] at h3
              simpa using h3
            · rw [hcc] at h3
              simp at h3
              omega
          omega

/-- C4, witness: an empty cache, two requests for `/a` around a delivery,
then a third request — exactly one scan is spawned in total. -/
theorem c4_witness :
    alookup ({} : nav).dirCache "/a" = none ∧
    (nav.loadDir {} "/a").2.2 = ["/a"] ∧
    ((runLoads {} [LoadStep.request "/a", LoadStep.request "/a",
        LoadStep.deliver dDelivered, LoadStep.request "/a"]).2.count "/a"
      ≤ if (alookup ({} : nav).dirCache "/a").isSome then 0 else 1) ∧
    (runLoads {} [LoadStep.request "/a", LoadStep.request "/a",
        LoadStep.deliver dDelivered, LoadStep.request "/a"]).2 = ["/a"] :=
  ⟨rfl, (c4_loadDir_dedup.1 {} "/a" rfl).2.2,
    c4_loadDir_dedup.2.2 [LoadStep.request "/a", LoadStep.request "/a",
      LoadStep.deliver dDelivered, LoadStep.request "/a"] {} "/a",
    by decide⟩

/-! ## Claim C1 -/

/-- C1, counterexample.  The claim states that `open()` on a non-directory
fails with a navigation error AND leaves the stack unchanged.  The error is
returned, but the Listing for the file's path was already appended to the
stack before `os.Chdir` failed, and nothing is rolled back: the stack grew
from one Listing to two. -/
theorem c1_counterexample :
    (nav.open' fsC1 navC1).1 = Except.error "open: chdir /t/b: not a directory" ∧
    (nav.open' fsC1 navC1).2.1.dirs ≠ navC1.dirs :=
  ⟨rfl, by decide⟩

/-- C1, amended.  When the highlighted entry's path does not stat as a
directory, `open()` returns a navigation error — but the stack is not
unchanged: the Listing obtained from `loadDir` for that path has been
appended to it (and, on a cache miss, a placeholder cached) before the
failing `chdir`; no rollback occurs. -/
theorem c1_open_nondir_error_but_pushes :
    ∀ (fs : FS) (nv : nav) (f : file),
      nav.currFile nv = some f →
      (∀ s, fs.stat f.path = some s → s.isDir = false) →
      ∃ e, (nav.open' fs nv).1 = Except.error e ∧
        (nav.open' fs nv).2.1.dirs = nv.dirs ++ [(nav.loadDir nv f.path).1] := by
  intro fs nv f hc hs
  unfold nav.open'
  rw [hc]
  have hch : ∃ e', chdirErr fs f.path = some e' := by
    unfold chdirErr
    cases hst : fs.stat f.path with
    | none => exact ⟨_, rfl⟩
    | some s =>
      dsimp only
      rw [if_neg (by simp [hs s hst])]
      exact ⟨_, rfl⟩
  obtain ⟨e', he⟩ := hch
  dsimp only
  rw [he]
  refine ⟨"open: " ++ e', rfl, ?_⟩
  dsimp only
  rw [loadDir_dirs]

/-- C1, witness: the amended statement at a stack of one Listing whose
cursor is on a regular file. -/
theorem c1_witness :
    nav.currFile navW1 = some fW1 ∧
    ∃ e, (nav.open' fsW1 navW1).1 = Except.error e ∧
      (nav.open' fsW1 navW1).2.1.dirs = navW1.dirs ++ [(nav.loadDir navW1 fW1.path).1] :=
  ⟨rfl, c1_open_nondir_error_but_pushes fsW1 navW1 fW1 rfl
    (fun s hst => by
      simp [fsW1, fW1] at hst
      subst hst
      rfl)⟩

/-! ## Claim C9 -/

/-- As long as the recorded indices are pairwise distinct — which
`toggleMark`'s monotone counter guarantees — sorting the mark pairs by
index gives the same list for every iteration order of the marks map. -/
theorem sortMarks_perm_eq {m₁ m₂ : List (String × Int)}
    (hp : m₁.Perm m₂) (hnd : m₂.Pairwise (fun a b => a.2 ≠ b.2)) :
    sortStable (fun a b : String × Int => decide (a.2 ≤ b.2)) m₁
      = sortStable (fun a b : String × Int => decide (a.2 ≤ b.2)) m₂ := by
  have htot : ∀ a b : String × Int,
      (decide (a.2 ≤ b.2)) = true ∨ (decide (b.2 ≤ a.2)) = true := by
    intro a b
    simp only [decide_eq_true_eq]
    omega
  have htrans : ∀ a b c : String × Int, (decide (a.2 ≤ b.2)) = true →
      (decide (b.2 ≤ c.2)) = true → (decide (a.2 ≤ c.2)) = true := by
    intro a b c
    simp only [decide_eq_true_eq]
    omega
  have hperm : (sortStable (fun a b : String × Int => decide (a.2 ≤ b.2)) m₁).Perm
      (sortStable (fun a b : String × Int => decide (a.2 ≤ b.2)) m₂) :=
    ((sortStable_perm _ m₁).trans hp).trans (sortStable_perm _ m₂).symm
  have hsym : ∀ {x y : String × Int}, x.2 ≠ y.2 → y.2 ≠ x.2 := fun h => h.symm
  have hne1 : (sortStable (fun a b : String × Int => decide (a.2 ≤ b.2)) m₁).Pairwise
      (fun a b => a.2 ≠ b.2) :=
    (List.Perm.pairwise_iff hsym ((sortStable_perm _ m₁).trans hp)).mpr hnd
  have hne2 : (sortStable (fun a b : String × Int => decide (a.2 ≤ b.2)) m₂).Pairwise
      (fun a b => a.2 ≠ b.2) :=
    (List.Perm.pairwise_iff hsym (sortStable_perm _ m₂)).mpr hnd
  have hstrict : ∀ {l : List (String × Int)},
      SortedB (fun a b : String × Int => decide (a.2 ≤ b.2)) l →
      l.Pairwise (fun a b => a.2 ≠ b.2) → List.Sorted (fun a b => a.2 < b.2) l := by
    intro l hs hne
    exact (hs.and hne).imp (fun h =>
      lt_of_le_of_ne (of_decide_eq_true h.1) h.2)
  haveI : IsAntisymm (String × Int) (fun a b => a.2 < b.2) :=
    ⟨fun a b h1 h2 => absurd (lt_trans h1 h2) (lt_irrefl _)⟩
  exact List.eq_of_perm_of_sorted hperm
    (hstrict (sortStable_sorted htot htrans m₁) hne1)
    (hstrict (sortStable_sorted htot htrans m₂) hne2)

/-- C9: from an empty mark set, toggling A, B, C makes `currMarks` return
`[A, B, C]`, and after toggling B off and on again it returns `[A, C, B]` —
for every iteration order of the underlying marks map (quantified as every
permutation of the recorded mark pairs). -/
theorem c9_marks_toggle_order :
    (∀ m : List (String × Int), m.Perm navM3.marks →
      nav.currMarks { navM3 with marks := m } = ["A", "B", "C"]) ∧
    (∀ m : List (String × Int), m.Perm navM5.marks →
      nav.currMarks { navM5 with marks := m } = ["A", "C", "B"]) := by
  constructor <;> intro m hp <;>
    unfold nav.currMarks <;> dsimp only <;> rw [sortMarks_perm_eq hp (by decide)] <;> decide

/-- C9, witness: the iteration order equal to insertion order (the identity
permutation) yields `[A, B, C]` and then `[A, C, B]`. -/
theorem c9_witness :
    nav.currMarks { navM3 with marks := navM3.marks } = ["A", "B", "C"] ∧
    nav.currMarks { navM5 with marks := navM5.marks } = ["A", "C", "B"] :=
  ⟨c9_marks_toggle_order.1 navM3.marks (List.Perm.refl _),
   c9_marks_toggle_order.2 navM5.marks (List.Perm.refl _)⟩

/-! ## Claim C10 -/

/-- C10: for an uncached path, `loadReg` returns and caches a "loading"
placeholder Register under the REQUESTED path and spawns a preview worker —
but the worker (`nav.preview`) takes no path: whenever it runs without
panicking it previews the file then under the cursor and delivers a
Register keyed by that current file's path, which need not equal the
requested path (the witness exhibits the mismatch). -/
theorem c10_loadReg_requested_vs_delivered :
    (∀ (nv : nav) (p : String), alookup nv.regCache p = none →
       (nav.loadReg nv p).1 = { path := p, lines := [loadingSentinel] } ∧
       alookup (nav.loadReg nv p).2.1.regCache p
         = some { path := p, lines := [loadingSentinel] } ∧
       (nav.loadReg nv p).2.2 = true) ∧
    (∀ (fs : FS) (cfg : Config) (nv' : nav) (f : file),
       nav.currFile nv' = some f →
       (cfg.previewer = "" ∨ fs.previewerPipeOk = true) →
       ∃ r : reg, nav.preview fs cfg nv' = Except.ok (some r) ∧ r.path = f.path) := by
  constructor
  · intro nv p h
    unfold nav.loadReg
    rw [h]
    exact ⟨rfl, alookup_aset_self _ _ _, rfl⟩
  · intro fs cfg nv' f hc hok
    unfold nav.preview
    rw [hc]
    dsimp only
    by_cases hprev : cfg.previewer = ""
    · rw [if_neg (by simp [hprev])]
      exact ⟨_, rfl, rfl⟩
    · have hpipe : fs.previewerPipeOk = true := by
        rcases hok with h | h
        · exact absurd h hprev
        · exact h
      rw [if_pos hprev, if_pos hpipe]
      exact ⟨_, rfl, rfl⟩

/-- C10, witness: requesting a preview for `/t/a` caches the placeholder
under `/t/a`, while the spawned worker runs with the cursor on `/t/b` and
delivers a Register keyed `/t/b` ≠ `/t/a`. -/
theorem c10_witness :
    alookup ({} : nav).regCache "/t/a" = none ∧
    (nav.loadReg {} "/t/a").2.2 = true ∧
    alookup (nav.loadReg {} "/t/a").2.1.regCache "/t/a"
      = some { path := "/t/a", lines := [loadingSentinel] } ∧
    nav.currFile navC10 = some fxB ∧
    (∃ r : reg, nav.preview fsC10 cfgC10 navC10 = Except.ok (some r) ∧ r.path = fxB.path) ∧
    fxB.path ≠ "/t/a" :=
  ⟨rfl, (c10_loadReg_requested_vs_delivered.1 {} "/t/a" rfl).2.2,
    (c10_loadReg_requested_vs_delivered.1 {} "/t/a" rfl).2.1,
    rfl,
    c10_loadReg_requested_vs_delivered.2 fsC10 cfgC10 navC10 fxB rfl (Or.inr rfl),
    by decide⟩
